import Mathlib

/-
Verification of the ShadersLab CPU rendering pipeline (src/src/main.rs and
src/src/shaders.rs).  Machine floats are embedded as exact rationals; a value
that the Rust code can only produce as a non-finite float (division by a zero
denominator) is embedded as `none` of an `Option` type.  The repository's
`color.rs`, `framebuffer.rs`, `fragment.rs`, `vertex.rs` and `planet_type.rs`
modules are not part of the provided sources; the definitions for those are
modelled from the specification and are marked as such.
-/

namespace ShadersLab

/-- Modelled from the spec: `color.rs` is missing from the sources.  A color is
three 8-bit channels (0-255). -/
structure Color where
  red : ℕ
  green : ℕ
  blue : ℕ
deriving DecidableEq

/-- Clamp a lerp factor to the unit interval, as the spec requires for
`Color::lerp`. -/
def clamp01 (t : ℚ) : ℚ := max 0 (min 1 t)

/-- Modelled from the spec: one channel of component-wise linear interpolation;
the float result is truncated back to an integer channel (Rust `as u8`). -/
def lerpChannel (a b : ℕ) (t : ℚ) : ℕ :=
  (⌊(a : ℚ) + ((b : ℚ) - (a : ℚ)) * clamp01 t⌋).toNat

/-- Modelled from the spec: component-wise linear interpolation with the factor
clamped to [0,1]. -/
def Color.lerp (c other : Color) (t : ℚ) : Color :=
  ⟨lerpChannel c.red other.red t,
   lerpChannel c.green other.green t,
   lerpChannel c.blue other.blue t⟩

/-- Modelled from the spec: one channel of scalar multiplication, clamped to
[0,255] and truncated back to an integer channel. -/
def scaleChannel (a : ℕ) (s : ℚ) : ℕ :=
  (⌊min 255 (max 0 ((a : ℚ) * s))⌋).toNat

/-- Modelled from the spec: scalar multiplication of a color, clamped per
channel to [0,255]. -/
def Color.scale (c : Color) (s : ℚ) : Color :=
  ⟨scaleChannel c.red s, scaleChannel c.green s, scaleChannel c.blue s⟩

instance : HMul Color ℚ Color := ⟨Color.scale⟩

theorem Color.scale_def (c : Color) (s : ℚ) : c * s = c.scale s := rfl

/-- Modelled from the spec: pack the three channels as 0xRRGGBB. -/
def Color.to_hex (c : Color) : ℕ := c.red * 65536 + c.green * 256 + c.blue

/-- The overlay intensity used by `blend_layers` (src/src/shaders.rs, lines
71-75): the mean of the three channels normalized to [0,1]. -/
def cloudIntensity (clouds : Color) : ℚ :=
  ((clouds.red : ℚ) + (clouds.green : ℚ) + (clouds.blue : ℚ)) / (3 * 255)

/-- Translation of `blend_layers` (src/src/shaders.rs, lines 68-82): the cloud
overlay is blended over the base with fixed opacity 0.7 only when its
intensity exceeds the threshold 0.3. -/
def blend_layers (base clouds : Color) : Color :=
  if cloudIntensity clouds > 0.3 then base.lerp clouds 0.7 else base

/-- C3: the Earth layer compositing returns the base unchanged when the overlay
intensity is at or below the threshold 0.3 (in particular when it is exactly at
the threshold), and returns `lerp base clouds 0.7` whenever the intensity is
strictly above the threshold. -/
theorem blend_layers_threshold (base clouds : Color) :
    (cloudIntensity clouds ≤ 3 / 10 → blend_layers base clouds = base) ∧
    (3 / 10 < cloudIntensity clouds →
      blend_layers base clouds = base.lerp clouds (7 / 10)) := by
  constructor <;> intro h
  · rw [blend_layers, if_neg (by push_neg; norm_num; exact h)]
  · rw [blend_layers, if_pos (by norm_num; exact h)]
    norm_num

/-- Witness for C3 at concrete colors: a black overlay is at or below the
threshold and leaves the base unchanged; a white overlay is above it and is
blended with opacity 0.7. -/
theorem blend_layers_threshold_w :
    (cloudIntensity ⟨0, 0, 0⟩ ≤ 3 / 10 ∧
      blend_layers ⟨10, 20, 30⟩ ⟨0, 0, 0⟩ = ⟨10, 20, 30⟩) ∧
    (3 / 10 < cloudIntensity ⟨255, 255, 255⟩ ∧
      blend_layers ⟨10, 20, 30⟩ ⟨255, 255, 255⟩ =
        Color.lerp ⟨10, 20, 30⟩ ⟨255, 255, 255⟩ (7 / 10)) :=
  ⟨⟨by norm_num [cloudIntensity],
    (blend_layers_threshold _ _).1 (by norm_num [cloudIntensity])⟩,
   ⟨by norm_num [cloudIntensity],
    (blend_layers_threshold _ _).2 (by norm_num [cloudIntensity])⟩⟩

/-- Modelled from the spec: a 3-component vector of (exact-rational) floats, as
nalgebra's `Vec3`. -/
structure Vec3q where
  x : ℚ
  y : ℚ
  z : ℚ
deriving DecidableEq

/-- Dot product with another `Vec3q`, as nalgebra's `dot`. -/
def Vec3q.dot (a b : Vec3q) : ℚ := a.x * b.x + a.y * b.y + a.z * b.z

/-- Modelled from the spec: `vertex.rs` is missing from the sources.  A vertex
carries the model-space attributes and, after the vertex shader, the two
transformed fields.  The transformed position is `none` when the Rust code
would have produced non-finite screen coordinates (division by w = 0). -/
structure Vertex where
  position : Vec3q
  normal : Vec3q
  tex_coords : ℚ × ℚ
  color : Color
  transformed_position : Option Vec3q
  transformed_normal : Vec3q

/-- Modelled from the spec: `fragment.rs` is missing from the sources.  A
fragment carries the screen position, depth, interpolated model-space position
and normal, and the scalar lighting intensity. -/
structure Fragment where
  position : ℚ × ℚ
  depth : ℚ
  vertex_position : Vec3q
  normal : Vec3q
  intensity : ℚ

/-- The noise evaluator (the external `FastNoiseLite` capability): deterministic
scalar fields sampled in 2D or 3D. -/
structure Noise where
  get_noise_2d : ℚ → ℚ → ℚ
  get_noise_3d : ℚ → ℚ → ℚ → ℚ

/-- The float math library functions used by the shaders (`f32::sin` for the
lava pulsation and `f32::powf(0.5)` for the Venus atmosphere), embedded as
abstract rational functions. -/
structure MathEnv where
  sin : ℚ → ℚ
  sqrt : ℚ → ℚ

/-- Modelled from the spec: `planet_type.rs` is missing from the sources.  The
closed set of nine material tags dispatched by `fragment_shader`. -/
inductive PlanetType where
  | Sun
  | Mercury
  | Venus
  | Earth
  | Mars
  | Jupiter
  | Saturn
  | Uranus
  | Neptune
deriving DecidableEq

/-- Translation of `Uniforms` (src/src/main.rs, lines 31-38). -/
structure Uniforms where
  model_matrix : Matrix (Fin 4) (Fin 4) ℚ
  view_matrix : Matrix (Fin 4) (Fin 4) ℚ
  projection_matrix : Matrix (Fin 4) (Fin 4) ℚ
  viewport_matrix : Matrix (Fin 4) (Fin 4) ℚ
  time : ℕ
  noise : Noise

/-- Translation of `create_viewport_matrix` (src/src/main.rs, lines 137-144). -/
def create_viewport_matrix (width height : ℚ) : Matrix (Fin 4) (Fin 4) ℚ :=
  !![width / 2, 0, 0, width / 2;
     0, -height / 2, 0, height / 2;
     0, 0, 1, 0;
     0, 0, 0, 1]

/-- nalgebra's `mat4_to_mat3`: the upper-left 3×3 block of a 4×4 matrix. -/
def mat4_to_mat3 (m : Matrix (Fin 4) (Fin 4) ℚ) : Matrix (Fin 3) (Fin 3) ℚ :=
  Matrix.of fun i j => m i.castSucc j.castSucc

/-- nalgebra's `Matrix3::try_inverse`: `none` exactly when the determinant is
zero, otherwise the cofactor (adjugate-over-determinant) inverse. -/
def tryInverse3 (m : Matrix (Fin 3) (Fin 3) ℚ) : Option (Matrix (Fin 3) (Fin 3) ℚ) :=
  if m.det = 0 then none else some ((m.det)⁻¹ • m.adjugate)

/-- Repackage a `Fin 3` vector as a `Vec3q`. -/
def vec3OfFn (f : Fin 3 → ℚ) : Vec3q := ⟨f 0, f 1, f 2⟩

/-- The clip-space position computed by `vertex_shader` (src/src/shaders.rs,
line 19): `projection_matrix * view_matrix * model_matrix * (x, y, z, 1)`. -/
def clipPosition (u : Uniforms) (v : Vertex) : Fin 4 → ℚ :=
  (u.projection_matrix * u.view_matrix * u.model_matrix).mulVec
    ![v.position.x, v.position.y, v.position.z, 1]

/-- The clip-space w component used for the perspective division. -/
def clipW (u : Uniforms) (v : Vertex) : ℚ := clipPosition u v 3

/-- The normal matrix computed by `vertex_shader` (src/src/shaders.rs, lines
34-35): `mat4_to_mat3(model).transpose().try_inverse().unwrap_or(identity)`. -/
def normalMatrix (m : Matrix (Fin 4) (Fin 4) ℚ) : Matrix (Fin 3) (Fin 3) ℚ :=
  (tryInverse3 (mat4_to_mat3 m).transpose).getD 1

/-- Translation of `vertex_shader` (src/src/shaders.rs, lines 11-48).  The
perspective division is not guarded: when w = 0 the Rust code divides by zero
and produces non-finite screen coordinates, embedded here as `none`. -/
def vertex_shader (u : Uniforms) (v : Vertex) : Vertex :=
  let transformed := clipPosition u v
  let w := transformed 3
  let screen : Option Vec3q :=
    if w = 0 then none
    else
      let ndc : Fin 4 → ℚ := ![transformed 0 / w, transformed 1 / w, transformed 2 / w, 1]
      let screen_position := u.viewport_matrix.mulVec ndc
      some ⟨screen_position 0, screen_position 1, screen_position 2⟩
  let normal_matrix := normalMatrix u.model_matrix
  let transformed_normal :=
    vec3OfFn (normal_matrix.mulVec ![v.normal.x, v.normal.y, v.normal.z])
  { position := v.position
    normal := v.normal
    tex_coords := v.tex_coords
    color := v.color
    transformed_position := screen
    transformed_normal := transformed_normal }

/-- C8: the vertex shader preserves all original attributes of the input vertex
(position, normal, tex_coords, color); being a pure Lean function of its
arguments, it has no side effects on the vertex or the uniforms. -/
theorem vertex_shader_preserves_attributes (u : Uniforms) (v : Vertex) :
    (vertex_shader u v).position = v.position ∧
    (vertex_shader u v).normal = v.normal ∧
    (vertex_shader u v).tex_coords = v.tex_coords ∧
    (vertex_shader u v).color = v.color :=
  ⟨rfl, rfl, rfl, rfl⟩

/-- The inverse transpose of a 3×3 matrix (the cofactor inverse followed by a
transpose), which the spec prescribes as the normal-transform matrix. -/
def inverseTranspose3 (m : Matrix (Fin 3) (Fin 3) ℚ) : Matrix (Fin 3) (Fin 3) ℚ :=
  ((m.det)⁻¹ • m.adjugate).transpose

/-- C4: the normal matrix used by the vertex shader is the inverse transpose of
the upper-left 3×3 of the model matrix: when that block is singular the
identity is used instead and the transformed normal equals the input normal
(and, the embedding being total, the operation never fails or produces NaN);
when it is invertible the normal matrix is a genuine two-sided inverse of the
transposed block and equals the inverse transpose. -/
theorem normal_matrix_inverse_transpose (u : Uniforms) (v : Vertex) :
    ((mat4_to_mat3 u.model_matrix).det = 0 →
      normalMatrix u.model_matrix = 1 ∧
      (vertex_shader u v).transformed_normal = v.normal) ∧
    ((mat4_to_mat3 u.model_matrix).det ≠ 0 →
      normalMatrix u.model_matrix = inverseTranspose3 (mat4_to_mat3 u.model_matrix) ∧
      normalMatrix u.model_matrix * (mat4_to_mat3 u.model_matrix).transpose = 1 ∧
      (mat4_to_mat3 u.model_matrix).transpose * normalMatrix u.model_matrix = 1) := by
  set A := mat4_to_mat3 u.model_matrix with hA
  constructor
  · intro h
    have hN : normalMatrix u.model_matrix = 1 := by
      rw [normalMatrix, ← hA, tryInverse3, if_pos (by rw [Matrix.det_transpose]; exact h)]
      rfl
    refine ⟨hN, ?_⟩
    show vec3OfFn ((normalMatrix u.model_matrix).mulVec ![v.normal.x, v.normal.y, v.normal.z])
        = v.normal
    rw [hN, Matrix.one_mulVec]
    simp [vec3OfFn]
  · intro h
    have hdt : (A.transpose).det ≠ 0 := by rwa [Matrix.det_transpose]
    have hN : normalMatrix u.model_matrix =
        ((A.transpose).det)⁻¹ • (A.transpose).adjugate := by
      rw [normalMatrix, ← hA, tryInverse3, if_neg hdt]
      rfl
    refine ⟨?_, ?_, ?_⟩
    · rw [hN, inverseTranspose3, Matrix.transpose_smul, Matrix.adjugate_transpose,
        Matrix.det_transpose]
    · rw [hN, smul_mul_assoc, Matrix.adjugate_mul, smul_smul,
        inv_mul_cancel₀ hdt, one_smul]
    · rw [hN, mul_smul_comm, Matrix.mul_adjugate, smul_smul,
        inv_mul_cancel₀ hdt, one_smul]

/-- A constant-zero noise evaluator used to build concrete test inputs. -/
def constNoise : Noise := ⟨fun _ _ => 0, fun _ _ _ => 0⟩

/-- A concrete test vertex used by the witnesses. -/
def testVertex : Vertex :=
  { position := ⟨0, 0, 0⟩
    normal := ⟨1, 2, 3⟩
    tex_coords := (0, 0)
    color := ⟨0, 0, 0⟩
    transformed_position := none
    transformed_normal := ⟨0, 0, 0⟩ }

/-- Concrete test uniforms with the given model matrix, identity view and
projection, and the program's 800×600 viewport. -/
def testUniforms (m : Matrix (Fin 4) (Fin 4) ℚ) : Uniforms :=
  { model_matrix := m
    view_matrix := 1
    projection_matrix := 1
    viewport_matrix := create_viewport_matrix 800 600
    time := 0
    noise := constNoise }

/-- Witness for C4: a zero model matrix has a singular 3×3 block and the normal
passes through unchanged; the identity model matrix has a unit-determinant
block and the normal matrix inverts its transpose. -/
theorem normal_matrix_inverse_transpose_w :
    ((mat4_to_mat3 (0 : Matrix (Fin 4) (Fin 4) ℚ)).det = 0 ∧
      (vertex_shader (testUniforms 0) testVertex).transformed_normal = testVertex.normal) ∧
    ((mat4_to_mat3 (1 : Matrix (Fin 4) (Fin 4) ℚ)).det ≠ 0 ∧
      normalMatrix (1 : Matrix (Fin 4) (Fin 4) ℚ) *
        (mat4_to_mat3 (1 : Matrix (Fin 4) (Fin 4) ℚ)).transpose = 1) := by
  have h0 : (mat4_to_mat3 (0 : Matrix (Fin 4) (Fin 4) ℚ)).det = 0 := by
    simp [mat4_to_mat3, Matrix.det_fin_three]
  have h1 : (mat4_to_mat3 (1 : Matrix (Fin 4) (Fin 4) ℚ)).det ≠ 0 := by
    simp [mat4_to_mat3, Matrix.det_fin_three, Matrix.one_apply]
  exact ⟨⟨h0, ((normal_matrix_inverse_transpose (testUniforms 0) testVertex).1 h0).2⟩,
    ⟨h1, ((normal_matrix_inverse_transpose (testUniforms 1) testVertex).2 h1).2.1⟩⟩

/-- The viewport matrix of the program applied to an NDC point: x is mapped
affinely into pixel space, y is flipped (NDC y = +1 lands on pixel row 0), and
z passes through unchanged. -/
theorem viewport_mulVec (W H a b c : ℚ) :
    (create_viewport_matrix W H).mulVec ![a, b, c, 1] =
      ![W / 2 * a + W / 2, H / 2 - H / 2 * b, c, 1] := by
  funext i
  fin_cases i <;>
    simp [create_viewport_matrix, Matrix.mulVec, Matrix.dotProduct,
      Fin.sum_univ_four]
  all_goals ring

/-- C5: with a nonzero clip-space w, the screen position produced by the vertex
shader is the viewport matrix applied to the perspective-divided clip position;
with the program's viewport matrix the y axis is flipped (NDC y = +1 maps to
pixel row 0) and z passes through unchanged as the normalized depth; the clip
position is `projection * view * model * (x, y, z, 1)` with the model matrix
applied first. -/
theorem vertex_shader_screen_position (u : Uniforms) (v : Vertex) (W H : ℚ)
    (hvp : u.viewport_matrix = create_viewport_matrix W H)
    (hw : clipW u v ≠ 0) :
    (vertex_shader u v).transformed_position =
      some ⟨W / 2 * (clipPosition u v 0 / clipW u v) + W / 2,
            H / 2 - H / 2 * (clipPosition u v 1 / clipW u v),
            clipPosition u v 2 / clipW u v⟩ ∧
    clipPosition u v =
      u.projection_matrix.mulVec (u.view_matrix.mulVec (u.model_matrix.mulVec
        ![v.position.x, v.position.y, v.position.z, 1])) := by
  constructor
  · have hdef : (vertex_shader u v).transformed_position =
        if clipW u v = 0 then none
        else some ⟨(u.viewport_matrix.mulVec
            ![clipPosition u v 0 / clipW u v, clipPosition u v 1 / clipW u v,
              clipPosition u v 2 / clipW u v, 1]) 0,
          (u.viewport_matrix.mulVec
            ![clipPosition u v 0 / clipW u v, clipPosition u v 1 / clipW u v,
              clipPosition u v 2 / clipW u v, 1]) 1,
          (u.viewport_matrix.mulVec
            ![clipPosition u v 0 / clipW u v, clipPosition u v 1 / clipW u v,
              clipPosition u v 2 / clipW u v, 1]) 2⟩ := rfl
    rw [hdef, if_neg hw, hvp, viewport_mulVec]
    simp
  · rw [clipPosition, Matrix.mulVec_mulVec, Matrix.mulVec_mulVec]

/-- Witness for C5: with identity model, view and projection matrices and the
program's 800×600 viewport, the vertex at the model-space origin has w = 1 and
lands at the center of the screen, at depth 0. -/
theorem vertex_shader_screen_position_w :
    clipW (testUniforms 1) testVertex ≠ 0 ∧
    (vertex_shader (testUniforms 1) testVertex).transformed_position =
      some ⟨400, 300, 0⟩ := by
  have hw : clipW (testUniforms 1) testVertex ≠ 0 := by
    norm_num [clipW, clipPosition, testUniforms, testVertex, Matrix.one_mulVec]
  refine ⟨hw, ?_⟩
  rw [(vertex_shader_screen_position (testUniforms 1) testVertex 800 600 rfl hw).1]
  norm_num [clipW, clipPosition, testUniforms, testVertex, Matrix.one_mulVec]

/-- A projection matrix of the perspective form used by the program (the last
row copies -z into w), with exact rational entries. -/
def perspectiveLike : Matrix (Fin 4) (Fin 4) ℚ :=
  !![1, 0, 0, 0;
     0, 1, 0, 0;
     0, 0, -1, -1/5;
     0, 0, -1, 0]

/-- Concrete uniforms under which the clip-space w of `testVertex` is exactly
zero: a perspective-shaped projection and a vertex at the eye plane. -/
def degenerateUniforms : Uniforms :=
  { model_matrix := 1
    view_matrix := 1
    projection_matrix := perspectiveLike
    viewport_matrix := create_viewport_matrix 800 600
    time := 0
    noise := constNoise }

/-- C2 (code-bug evidence): the vertex shader does not guard the perspective
division.  At a concrete vertex and uniforms whose clip-space w is exactly
zero, the division by w is performed anyway and the produced screen position is
non-finite (embedded as `none`), contradicting the spec's requirement that the
transform clamp w away from zero or skip the vertex. -/
theorem vertex_shader_unguarded_division :
    clipW degenerateUniforms testVertex = 0 ∧
    (vertex_shader degenerateUniforms testVertex).transformed_position = none := by
  have h : clipW degenerateUniforms testVertex = 0 := by
    norm_num [clipW, clipPosition, degenerateUniforms, perspectiveLike, testVertex,
      Matrix.mulVec, Matrix.dotProduct, Fin.sum_univ_four]
  refine ⟨h, ?_⟩
  have hdef : (vertex_shader degenerateUniforms testVertex).transformed_position =
      if clipW degenerateUniforms testVertex = 0 then none
      else some ⟨(degenerateUniforms.viewport_matrix.mulVec
          ![clipPosition degenerateUniforms testVertex 0 / clipW degenerateUniforms testVertex,
            clipPosition degenerateUniforms testVertex 1 / clipW degenerateUniforms testVertex,
            clipPosition degenerateUniforms testVertex 2 / clipW degenerateUniforms testVertex,
            1]) 0,
        (degenerateUniforms.viewport_matrix.mulVec
          ![clipPosition degenerateUniforms testVertex 0 / clipW degenerateUniforms testVertex,
            clipPosition degenerateUniforms testVertex 1 / clipW degenerateUniforms testVertex,
            clipPosition degenerateUniforms testVertex 2 / clipW degenerateUniforms testVertex,
            1]) 1,
        (degenerateUniforms.viewport_matrix.mulVec
          ![clipPosition degenerateUniforms testVertex 0 / clipW degenerateUniforms testVertex,
            clipPosition degenerateUniforms testVertex 1 / clipW degenerateUniforms testVertex,
            clipPosition degenerateUniforms testVertex 2 / clipW degenerateUniforms testVertex,
            1]) 2⟩ := rfl
  rw [hdef, if_pos h]

/-- The noise sample of `cloud_shader` (src/src/shaders.rs, lines 99-106): 2D
noise at the zoomed, offset and time-shifted model-space x,y. -/
def cloudNoiseValue (u : Uniforms) (fragment : Fragment) : ℚ :=
  u.noise.get_noise_2d
    (fragment.vertex_position.x * 100 + 100 + (u.time : ℚ) * 0.1)
    (fragment.vertex_position.y * 100 + 100)

/-- The cloud blend factor of `cloud_shader` (src/src/shaders.rs, lines
109-116): zero at or below the threshold 0.1, otherwise the normalized excess
clamped from above to 1. -/
def cloudFactor (u : Uniforms) (fragment : Fragment) : ℚ :=
  if cloudNoiseValue u fragment > 0.1 then
    min ((cloudNoiseValue u fragment - 0.1) / (1 - 0.1)) 1
  else 0

/-- Translation of `cloud_shader` (src/src/shaders.rs, lines 98-119). -/
def cloud_shader (u : Uniforms) (fragment : Fragment) : Color :=
  (⟨255, 255, 255⟩ : Color) * (cloudFactor u fragment * fragment.intensity)

/-- The contrast-adjusted noise value of `lava_shader` (src/src/shaders.rs,
lines 134-155), including the time-driven sine pulsation. -/
def lavaNoiseValue (env : MathEnv) (u : Uniforms) (fragment : Fragment) : ℚ :=
  let position : Vec3q :=
    ⟨fragment.vertex_position.x, fragment.vertex_position.y, fragment.depth⟩
  let t : ℚ := (u.time : ℚ) * 0.02
  let pulsate := env.sin (t * 0.4) * 0.8
  let zoom : ℚ := 800
  let noise_value1 := u.noise.get_noise_3d (position.x * zoom) (position.y * zoom)
    ((position.z + pulsate) * zoom)
  let noise_value2 := u.noise.get_noise_3d ((position.x + 1000) * zoom)
    ((position.y + 1000) * zoom) ((position.z + 1000 + pulsate) * zoom)
  min ((noise_value1 + noise_value2) * 0.5 + 0.2) 1

/-- The color of `lava_shader` before the intensity step (src/src/shaders.rs,
line 157). -/
def lavaBase (env : MathEnv) (u : Uniforms) (fragment : Fragment) : Color :=
  Color.lerp ⟨255, 140, 0⟩ ⟨255, 255, 100⟩ (lavaNoiseValue env u fragment)

/-- Translation of `lava_shader` (src/src/shaders.rs, lines 122-161): note the
extra overall factor 1.2 applied after the intensity multiplication. -/
def lava_shader (env : MathEnv) (u : Uniforms) (fragment : Fragment) : Color :=
  lavaBase env u fragment * fragment.intensity * (1.2 : ℚ)

/-- The land factor of `earth_shader` (src/src/shaders.rs, lines 174-194). -/
def earthLandFactor (u : Uniforms) (fragment : Fragment) : ℚ :=
  let noise_value := |u.noise.get_noise_3d (fragment.vertex_position.x * 250)
    (fragment.vertex_position.y * 250) (fragment.depth * 250)|
  if noise_value < 0.5 - 0.1 then 0
  else if noise_value > 0.5 + 0.1 then 1
  else (noise_value - (0.5 - 0.1)) / (0.1 * 2)

/-- The color of `earth_shader` before the intensity step (src/src/shaders.rs,
lines 196-204). -/
def earthBase (u : Uniforms) (fragment : Fragment) : Color :=
  let base_color := Color.lerp ⟨25, 80, 180⟩ ⟨50, 160, 80⟩ (earthLandFactor u fragment)
  let normal_dot := fragment.normal.dot ⟨0, 0, 1⟩
  let atmosphere_factor := (1 - |normal_dot|) ^ 2
  base_color.lerp ⟨150, 200, 255⟩ (atmosphere_factor * 0.4)

/-- Translation of `earth_shader` (src/src/shaders.rs, lines 163-207). -/
def earth_shader (u : Uniforms) (fragment : Fragment) : Color :=
  earthBase u fragment * fragment.intensity

/-- The color of `mercury_shader` before the intensity step (src/src/shaders.rs,
lines 215-238). -/
def mercuryBase (u : Uniforms) (fragment : Fragment) : Color :=
  let position := fragment.vertex_position
  let terrain := |u.noise.get_noise_3d (position.x * 300) (position.y * 300)
    (position.z * 300)|
  let craters := |u.noise.get_noise_3d (position.x * 600) (position.y * 600)
    (position.z * 600)|
  let base_color := Color.lerp ⟨80, 75, 70⟩ ⟨170, 160, 150⟩ terrain
  if craters > 0.7 then base_color.lerp ⟨60, 55, 50⟩ 0.5 else base_color

/-- Translation of `mercury_shader` (src/src/shaders.rs, lines 209-241). -/
def mercury_shader (u : Uniforms) (fragment : Fragment) : Color :=
  mercuryBase u fragment * fragment.intensity

/-- The color of `venus_shader` before the intensity step (src/src/shaders.rs,
lines 248-265). -/
def venusBase (env : MathEnv) (u : Uniforms) (fragment : Fragment) : Color :=
  let position := fragment.vertex_position
  let t : ℚ := (u.time : ℚ) * 0.05
  let clouds := |u.noise.get_noise_3d (position.x * 150 + t) (position.y * 150)
    (position.z * 150)|
  let final_color := Color.lerp ⟨230, 180, 50⟩ ⟨255, 198, 88⟩ clouds
  let atmosphere_factor := env.sqrt (1 - fragment.normal.dot ⟨0, 0, 1⟩)
  final_color.lerp ⟨255, 220, 150⟩ (atmosphere_factor * 0.3)

/-- Translation of `venus_shader` (src/src/shaders.rs, lines 243-266). -/
def venus_shader (env : MathEnv) (u : Uniforms) (fragment : Fragment) : Color :=
  venusBase env u fragment * fragment.intensity

/-- The color of `mars_shader` before the intensity step (src/src/shaders.rs,
lines 274-293). -/
def marsBase (u : Uniforms) (fragment : Fragment) : Color :=
  let position := fragment.vertex_position
  let terrain := |u.noise.get_noise_3d (position.x * 250) (position.y * 250)
    (position.z * 250)|
  let dust := |u.noise.get_noise_3d (position.x * 400) (position.y * 400)
    (position.z * 400)|
  (Color.lerp ⟨145, 50, 20⟩ ⟨200, 80, 30⟩ terrain).lerp ⟨230, 130, 50⟩ (dust * 0.3)

/-- Translation of `mars_shader` (src/src/shaders.rs, lines 268-296). -/
def mars_shader (u : Uniforms) (fragment : Fragment) : Color :=
  marsBase u fragment * fragment.intensity

/-- The color of `jupiter_shader` before the intensity step (src/src/shaders.rs,
lines 304-323). -/
def jupiterBase (u : Uniforms) (fragment : Fragment) : Color :=
  let position := fragment.vertex_position
  let t : ℚ := (u.time : ℚ) * 0.1
  let bands := |u.noise.get_noise_2d (position.y * 100) t|
  let turbulence := |u.noise.get_noise_3d (position.x * 300 + t) (position.y * 300)
    (position.z * 300)|
  (Color.lerp ⟨180, 140, 100⟩ ⟨255, 220, 180⟩ bands).lerp ⟨255, 160, 120⟩
    (turbulence * 0.3)

/-- Translation of `jupiter_shader` (src/src/shaders.rs, lines 298-326). -/
def jupiter_shader (u : Uniforms) (fragment : Fragment) : Color :=
  jupiterBase u fragment * fragment.intensity

/-- The color of `saturn_shader` before the intensity step (src/src/shaders.rs,
lines 333-351). -/
def saturnBase (u : Uniforms) (fragment : Fragment) : Color :=
  let position := fragment.vertex_position
  let t : ℚ := (u.time : ℚ) * 0.08
  let bands := |u.noise.get_noise_2d (position.y * 120) t|
  let turbulence := |u.noise.get_noise_3d (position.x * 350 + t) (position.y * 350)
    (position.z * 350)|
  Color.lerp ⟨255, 240, 200⟩ ⟨200, 180, 140⟩ (bands * (1 - turbulence * 0.3))

/-- Translation of `saturn_shader` (src/src/shaders.rs, lines 328-354). -/
def saturn_shader (u : Uniforms) (fragment : Fragment) : Color :=
  saturnBase u fragment * fragment.intensity

/-- The color of `uranus_shader` before the intensity step (src/src/shaders.rs,
lines 361-372). -/
def uranusBase (u : Uniforms) (fragment : Fragment) : Color :=
  let position := fragment.vertex_position
  let t : ℚ := (u.time : ℚ) * 0.03
  let clouds := |u.noise.get_noise_3d (position.x * 200 + t) (position.y * 200)
    (position.z * 200)|
  Color.lerp ⟨150, 210, 230⟩ ⟨180, 230, 255⟩ (clouds * 0.4)

/-- Translation of `uranus_shader` (src/src/shaders.rs, lines 356-375). -/
def uranus_shader (u : Uniforms) (fragment : Fragment) : Color :=
  uranusBase u fragment * fragment.intensity

/-- The color of `neptune_shader` before the intensity step (src/src/shaders.rs,
lines 382-400). -/
def neptuneBase (u : Uniforms) (fragment : Fragment) : Color :=
  let position := fragment.vertex_position
  let t : ℚ := (u.time : ℚ) * 0.06
  let storms := |u.noise.get_noise_3d (position.x * 250 + t) (position.y * 250)
    (position.z * 250)|
  let bands := |u.noise.get_noise_2d (position.y * 150) t|
  Color.lerp ⟨30, 100, 200⟩ ⟨100, 160, 255⟩ ((storms + bands * 0.5) * 0.4)

/-- Translation of `neptune_shader` (src/src/shaders.rs, lines 377-403). -/
def neptune_shader (u : Uniforms) (fragment : Fragment) : Color :=
  neptuneBase u fragment * fragment.intensity

/-- Translation of `fragment_shader` (src/src/shaders.rs, lines 50-66): pure
dispatch on the material tag. -/
def fragment_shader (env : MathEnv) (u : Uniforms) (fragment : Fragment)
    (planet_type : PlanetType) : Color :=
  match planet_type with
  | PlanetType.Sun => lava_shader env u fragment
  | PlanetType.Mercury => mercury_shader u fragment
  | PlanetType.Venus => venus_shader env u fragment
  | PlanetType.Earth => blend_layers (earth_shader u fragment) (cloud_shader u fragment)
  | PlanetType.Mars => mars_shader u fragment
  | PlanetType.Jupiter => jupiter_shader u fragment
  | PlanetType.Saturn => saturn_shader u fragment
  | PlanetType.Uranus => uranus_shader u fragment
  | PlanetType.Neptune => neptune_shader u fragment

/-- C6 (amended): seven of the nine materials return their material-specific
color scaled by exactly the fragment's lighting intensity as the final step;
the Sun material applies an additional fixed factor 1.2 after the intensity
multiplication, and the Earth material composites the cloud layer over the
terrain by `blend_layers` after each layer has been intensity-scaled. -/
theorem fragment_shader_intensity_step (env : MathEnv) (u : Uniforms) (f : Fragment) :
    fragment_shader env u f PlanetType.Mercury = mercuryBase u f * f.intensity ∧
    fragment_shader env u f PlanetType.Venus = venusBase env u f * f.intensity ∧
    fragment_shader env u f PlanetType.Mars = marsBase u f * f.intensity ∧
    fragment_shader env u f PlanetType.Jupiter = jupiterBase u f * f.intensity ∧
    fragment_shader env u f PlanetType.Saturn = saturnBase u f * f.intensity ∧
    fragment_shader env u f PlanetType.Uranus = uranusBase u f * f.intensity ∧
    fragment_shader env u f PlanetType.Neptune = neptuneBase u f * f.intensity ∧
    fragment_shader env u f PlanetType.Sun =
      lavaBase env u f * f.intensity * (1.2 : ℚ) ∧
    fragment_shader env u f PlanetType.Earth =
      blend_layers (earthBase u f * f.intensity) (cloud_shader u f) :=
  ⟨rfl, rfl, rfl, rfl, rfl, rfl, rfl, rfl, rfl⟩

/-- The float math environment in which both `sin` and `sqrt` return 0, used
only to build concrete inputs (it agrees with the real functions at 0). -/
def zeroEnv : MathEnv := ⟨fun _ => 0, fun _ => 0⟩

/-- A concrete fragment at the model-space origin with full lighting
intensity. -/
def testFragment : Fragment :=
  { position := (0, 0)
    depth := 0
    vertex_position := ⟨0, 0, 0⟩
    normal := ⟨0, 0, 1⟩
    intensity := 1 }

/-- Counterexample for C6: at a concrete fragment with intensity 1 and
constant-zero noise, the Sun material's returned color is not its material
color scaled by the intensity — the extra 1.2 factor changes the channels
(195 and 24 instead of 163 and 20). -/
theorem fragment_shader_sun_not_intensity_scaled :
    fragment_shader zeroEnv (testUniforms 1) testFragment PlanetType.Sun ≠
      lavaBase zeroEnv (testUniforms 1) testFragment * testFragment.intensity := by
  have hnv : lavaNoiseValue zeroEnv (testUniforms 1) testFragment = 1 / 5 := by
    norm_num [lavaNoiseValue, zeroEnv, testUniforms, constNoise, testFragment, min_def]
  have hbase : lavaBase zeroEnv (testUniforms 1) testFragment = ⟨255, 163, 20⟩ := by
    rw [lavaBase, hnv]
    norm_num [Color.lerp, lerpChannel, clamp01, min_def, max_def]
    all_goals decide
  have hmul1 : (⟨255, 163, 20⟩ : Color) * (1 : ℚ) = ⟨255, 163, 20⟩ := by
    norm_num [Color.scale_def, Color.scale, scaleChannel, min_def, max_def]
    all_goals decide
  have hmul2 : (⟨255, 163, 20⟩ : Color) * (1.2 : ℚ) = ⟨255, 195, 24⟩ := by
    norm_num [Color.scale_def, Color.scale, scaleChannel, min_def, max_def]
    all_goals decide
  have hL : fragment_shader zeroEnv (testUniforms 1) testFragment PlanetType.Sun =
      ⟨255, 195, 24⟩ := by
    show lavaBase zeroEnv (testUniforms 1) testFragment * testFragment.intensity *
      (1.2 : ℚ) = _
    rw [hbase]
    show (⟨255, 163, 20⟩ : Color) * (1 : ℚ) * (1.2 : ℚ) = _
    rw [hmul1, hmul2]
  have hR : lavaBase zeroEnv (testUniforms 1) testFragment * testFragment.intensity =
      ⟨255, 163, 20⟩ := by
    rw [hbase]
    show (⟨255, 163, 20⟩ : Color) * (1 : ℚ) = _
    exact hmul1
  rw [hL, hR]
  simp

/-- C9: the fragment-shading stage is deterministic — evaluating the fragment
shader on equal fragments and equal uniforms yields equal colors, for every
material tag. -/
theorem fragment_shader_deterministic (env : MathEnv) (u₁ u₂ : Uniforms)
    (f₁ f₂ : Fragment) (pt : PlanetType) (hf : f₁ = f₂) (hu : u₁ = u₂) :
    fragment_shader env u₁ f₁ pt = fragment_shader env u₂ f₂ pt := by
  rw [hf, hu]

/-- Witness for C9 at a concrete fragment, uniforms and material tag. -/
theorem fragment_shader_deterministic_w :
    fragment_shader zeroEnv (testUniforms 1) testFragment PlanetType.Mars =
      fragment_shader zeroEnv (testUniforms 1) testFragment PlanetType.Mars :=
  fragment_shader_deterministic zeroEnv (testUniforms 1) (testUniforms 1)
    testFragment testFragment PlanetType.Mars rfl rfl

/-- C10: the cloud blend factor always lies in [0,1]; it is 0 exactly when the
sampled noise is at or below the threshold 0.1, and otherwise equals the
normalized excess clamped from above to 1; for a fragment intensity in [0,1]
the returned cloud color is white scaled by a factor in [0,1]. -/
theorem cloud_factor_bounds (u : Uniforms) (f : Fragment) :
    (0 ≤ cloudFactor u f ∧ cloudFactor u f ≤ 1) ∧
    (cloudNoiseValue u f ≤ 1 / 10 → cloudFactor u f = 0) ∧
    (1 / 10 < cloudNoiseValue u f →
      cloudFactor u f = min ((cloudNoiseValue u f - 1 / 10) / (9 / 10)) 1) ∧
    (0 ≤ f.intensity → f.intensity ≤ 1 →
      cloud_shader u f =
        (⟨255, 255, 255⟩ : Color) * (cloudFactor u f * f.intensity) ∧
      0 ≤ cloudFactor u f * f.intensity ∧
      cloudFactor u f * f.intensity ≤ 1) := by
  have hbounds : 0 ≤ cloudFactor u f ∧ cloudFactor u f ≤ 1 := by
    rw [cloudFactor]
    split
    · rename_i hgt
      constructor
      · exact le_min (div_nonneg (by linarith) (by norm_num)) (by norm_num)
      · exact min_le_right _ _
    · norm_num
  refine ⟨hbounds, ?_, ?_, ?_⟩
  · intro h
    rw [cloudFactor, if_neg (by push_neg; norm_num; linarith)]
  · intro h
    rw [cloudFactor, if_pos (by norm_num; linarith)]
    norm_num
  · intro h0 h1
    refine ⟨rfl, mul_nonneg hbounds.1 h0, ?_⟩
    calc cloudFactor u f * f.intensity ≤ 1 * 1 :=
          mul_le_mul hbounds.2 h1 h0 (by norm_num)
      _ = 1 := by norm_num

/-- Concrete uniforms whose noise evaluator returns the constant 1/2, putting
the cloud noise strictly above the threshold. -/
def testUniformsHalfNoise : Uniforms :=
  { model_matrix := 1
    view_matrix := 1
    projection_matrix := 1
    viewport_matrix := create_viewport_matrix 800 600
    time := 0
    noise := ⟨fun _ _ => 1 / 2, fun _ _ _ => 1 / 2⟩ }

/-- Witness for C10: with constant-zero noise the factor is 0; with constant
1/2 noise it is the normalized excess; at intensity 1 the scale stays in
[0,1]. -/
theorem cloud_factor_bounds_w :
    (cloudNoiseValue (testUniforms 1) testFragment ≤ 1 / 10 ∧
      cloudFactor (testUniforms 1) testFragment = 0) ∧
    (1 / 10 < cloudNoiseValue testUniformsHalfNoise testFragment ∧
      cloudFactor testUniformsHalfNoise testFragment =
        min ((cloudNoiseValue testUniformsHalfNoise testFragment - 1 / 10) / (9 / 10)) 1) ∧
    (0 ≤ testFragment.intensity ∧ testFragment.intensity ≤ 1 ∧
      0 ≤ cloudFactor testUniformsHalfNoise testFragment * testFragment.intensity ∧
      cloudFactor testUniformsHalfNoise testFragment * testFragment.intensity ≤ 1) := by
  have h0 : cloudNoiseValue (testUniforms 1) testFragment ≤ 1 / 10 := by
    norm_num [cloudNoiseValue, testUniforms, constNoise, testFragment]
  have hh : (1 : ℚ) / 10 < cloudNoiseValue testUniformsHalfNoise testFragment := by
    norm_num [cloudNoiseValue, testUniformsHalfNoise, testFragment]
  have hi0 : (0 : ℚ) ≤ testFragment.intensity := by norm_num [testFragment]
  have hi1 : testFragment.intensity ≤ (1 : ℚ) := by norm_num [testFragment]
  exact ⟨⟨h0, (cloud_factor_bounds (testUniforms 1) testFragment).2.1 h0⟩,
    ⟨hh, (cloud_factor_bounds testUniformsHalfNoise testFragment).2.2.1 hh⟩,
    hi0, hi1,
    ((cloud_factor_bounds testUniformsHalfNoise testFragment).2.2.2 hi0 hi1).2.1,
    ((cloud_factor_bounds testUniformsHalfNoise testFragment).2.2.2 hi0 hi1).2.2⟩

/-- Modelled from the spec: `framebuffer.rs` is missing from the sources.  The
framebuffer holds a color buffer, a depth buffer (`⊤` is the maximum
representable depth meaning "nothing drawn yet"), and the scratch current draw
color. -/
structure Framebuffer where
  width : ℕ
  height : ℕ
  background_color : ℕ
  current_color : ℕ
  buffer : ℕ → ℕ → ℕ
  depth_buffer : ℕ → ℕ → WithTop ℚ

/-- Modelled from the spec: `clear()` resets every pixel to the background
color and every depth entry to the maximum representable depth. -/
def Framebuffer.clear (fb : Framebuffer) : Framebuffer :=
  { fb with buffer := fun _ _ => fb.background_color
            depth_buffer := fun _ _ => ⊤ }

/-- Modelled from the spec: `set_current_color` sets the scratch state consumed
by the next `point` call. -/
def Framebuffer.set_current_color (fb : Framebuffer) (c : ℕ) : Framebuffer :=
  { fb with current_color := c }

/-- Modelled from the spec: `point(x, y, depth)` writes the current draw color
at (x,y) only if `depth` is strictly less than the stored depth at that pixel,
then updates the stored depth; otherwise it changes nothing. -/
def Framebuffer.point (fb : Framebuffer) (x y : ℕ) (depth : ℚ) : Framebuffer :=
  if (depth : WithTop ℚ) < fb.depth_buffer x y then
    { fb with
      buffer := fun i j => if i = x ∧ j = y then fb.current_color else fb.buffer i j
      depth_buffer := fun i j =>
        if i = x ∧ j = y then (depth : WithTop ℚ) else fb.depth_buffer i j }
  else fb

/-- One `set_current_color`-then-`point` event of the render loop
(src/src/main.rs, lines 178-188). -/
structure Call where
  color : ℕ
  x : ℕ
  y : ℕ
  depth : ℚ
deriving DecidableEq

/-- Execute one draw call: set the current color, then write the point. -/
def drawCall (fb : Framebuffer) (c : Call) : Framebuffer :=
  (fb.set_current_color c.color).point c.x c.y c.depth

/-- Execute a sequence of draw calls in order. -/
def drawCalls (fb : Framebuffer) (l : List Call) : Framebuffer :=
  l.foldl drawCall fb

/-- The per-pixel effect of one draw call on a (color, depth) pair. -/
def pstep (s : ℕ × WithTop ℚ) (c : Call) : ℕ × WithTop ℚ :=
  if (c.depth : WithTop ℚ) < s.2 then (c.color, (c.depth : WithTop ℚ)) else s

/-- The draw calls of a sequence that target the pixel (x, y). -/
def callsAt (x y : ℕ) (l : List Call) : List Call :=
  l.filter fun c => c.x = x ∧ c.y = y

/-- The minimum depth among a list of draw calls (⊤ when the list is empty). -/
def minDepth (l : List Call) : WithTop ℚ :=
  (l.map fun c => (c.depth : WithTop ℚ)).foldr min ⊤

/-- The color of the first call in the list whose depth equals `m`, or the
default when there is none. -/
def firstColorWithDepth (l : List Call) (m : WithTop ℚ) (dflt : ℕ) : ℕ :=
  ((l.find? fun c => (c.depth : WithTop ℚ) = m).map Call.color).getD dflt

/-- The color of the first call attaining the minimum depth of the list. -/
def firstMinColor (l : List Call) (dflt : ℕ) : ℕ :=
  firstColorWithDepth l (minDepth l) dflt

theorem minDepth_nil : minDepth [] = ⊤ := rfl

theorem minDepth_cons (c : Call) (t : List Call) :
    minDepth (c :: t) = min (c.depth : WithTop ℚ) (minDepth t) := rfl

/-- The effect of one draw call on one pixel of the buffers: `pstep` if the
call targets the pixel, nothing otherwise. -/
theorem drawCall_pixel (fb : Framebuffer) (c : Call) (x y : ℕ) :
    ((drawCall fb c).buffer x y, (drawCall fb c).depth_buffer x y) =
      if c.x = x ∧ c.y = y then pstep (fb.buffer x y, fb.depth_buffer x y) c
      else (fb.buffer x y, fb.depth_buffer x y) := by
  by_cases hc : c.x = x ∧ c.y = y
  · obtain ⟨hx, hy⟩ := hc
    subst hx; subst hy
    by_cases hd : (c.depth : WithTop ℚ) < fb.depth_buffer c.x c.y
    · simp [drawCall, Framebuffer.point, Framebuffer.set_current_color, pstep, hd]
    · simp [drawCall, Framebuffer.point, Framebuffer.set_current_color, pstep, hd]
  · rw [if_neg hc]
    by_cases hd : (c.depth : WithTop ℚ) < fb.depth_buffer c.x c.y
    · simp only [drawCall, Framebuffer.point, Framebuffer.set_current_color, if_pos hd]
      simp only [Prod.mk.injEq]
      constructor <;>
        · rw [if_neg fun hxy => hc ⟨hxy.1.symm, hxy.2.symm⟩]
    · simp [drawCall, Framebuffer.point, Framebuffer.set_current_color, hd]

/-- Localization: the buffers at one pixel after a sequence of draw calls are
the per-pixel fold of the calls targeting that pixel. -/
theorem drawCalls_pixel (l : List Call) (fb : Framebuffer) (x y : ℕ) :
    ((drawCalls fb l).buffer x y, (drawCalls fb l).depth_buffer x y) =
      List.foldl pstep (fb.buffer x y, fb.depth_buffer x y) (callsAt x y l) := by
  induction l generalizing fb with
  | nil => rfl
  | cons c t ih =>
    have hstep : drawCalls fb (c :: t) = drawCalls (drawCall fb c) t := rfl
    rw [hstep, ih]
    by_cases hc : c.x = x ∧ c.y = y
    · have hfilter : callsAt x y (c :: t) = c :: callsAt x y t := by
        simp [callsAt, List.filter_cons, hc]
      rw [hfilter, List.foldl_cons]
      have := drawCall_pixel fb c x y
      rw [if_pos hc] at this
      rw [show (drawCall fb c).buffer x y = (pstep (fb.buffer x y, fb.depth_buffer x y) c).1 by
            rw [← this],
          show (drawCall fb c).depth_buffer x y =
              (pstep (fb.buffer x y, fb.depth_buffer x y) c).2 by rw [← this]]
    · have hfilter : callsAt x y (c :: t) = callsAt x y t := by
        simp [callsAt, List.filter_cons, hc]
      rw [hfilter]
      have := drawCall_pixel fb c x y
      rw [if_neg hc] at this
      rw [show (drawCall fb c).buffer x y = fb.buffer x y by
            rw [show fb.buffer x y = ((fb.buffer x y, fb.depth_buffer x y)).1 from rfl, ← this],
          show (drawCall fb c).depth_buffer x y = fb.depth_buffer x y by
            rw [show fb.depth_buffer x y = ((fb.buffer x y, fb.depth_buffer x y)).2 from rfl,
              ← this]]

/-- The minimum depth of a nonempty (in the sense of having a finite minimum)
call list is attained by some call. -/
theorem minDepth_attained (l : List Call) (h : minDepth l < ⊤) :
    ∃ c ∈ l, (c.depth : WithTop ℚ) = minDepth l := by
  induction l with
  | nil => rw [minDepth_nil] at h; exact absurd h (lt_irrefl ⊤)
  | cons c t ih =>
    rcases le_total (c.depth : WithTop ℚ) (minDepth t) with hle | hle
    · refine ⟨c, List.mem_cons_self c t, ?_⟩
      rw [minDepth_cons, min_eq_left hle]
    · have ht : minDepth t < ⊤ := lt_of_le_of_lt hle (WithTop.coe_lt_top c.depth)
      obtain ⟨d, hd, hdep⟩ := ih ht
      refine ⟨d, List.mem_cons_of_mem c hd, ?_⟩
      rw [minDepth_cons, min_eq_right hle, hdep]

/-- When some call has depth `m`, the first color with depth `m` does not
depend on the default. -/
theorem firstColorWithDepth_default (l : List Call) (m : WithTop ℚ)
    (h : ∃ c ∈ l, (c.depth : WithTop ℚ) = m) (d₁ d₂ : ℕ) :
    firstColorWithDepth l m d₁ = firstColorWithDepth l m d₂ := by
  have hs : (l.find? fun c => (c.depth : WithTop ℚ) = m).isSome := by
    rw [List.find?_isSome]
    obtain ⟨c, hc, hd⟩ := h
    exact ⟨c, hc, by simp [hd]⟩
  obtain ⟨a, ha⟩ := Option.isSome_iff_exists.mp hs
  simp [firstColorWithDepth, ha]

theorem firstColorWithDepth_cons_pos (c : Call) (t : List Call) (m : WithTop ℚ)
    (d : ℕ) (h : (c.depth : WithTop ℚ) = m) :
    firstColorWithDepth (c :: t) m d = c.color := by
  rw [firstColorWithDepth, List.find?_cons_of_pos _ (by simp [h])]
  rfl

theorem firstColorWithDepth_cons_neg (c : Call) (t : List Call) (m : WithTop ℚ)
    (d : ℕ) (h : (c.depth : WithTop ℚ) ≠ m) :
    firstColorWithDepth (c :: t) m d = firstColorWithDepth t m d := by
  rw [firstColorWithDepth, List.find?_cons_of_neg _ (by simp [h]), firstColorWithDepth]

/-- Characterization of the per-pixel fold: if the minimum call depth beats the
initial depth, the final state is the color of the first call attaining that
minimum together with the minimum; otherwise the state is unchanged. -/
theorem foldl_pstep_char (l : List Call) (pc : ℕ) (pd : WithTop ℚ) :
    List.foldl pstep (pc, pd) l =
      if minDepth l < pd then (firstColorWithDepth l (minDepth l) pc, minDepth l)
      else (pc, pd) := by
  induction l generalizing pc pd with
  | nil =>
    rw [List.foldl_nil, minDepth_nil, if_neg (not_top_lt)]
  | cons c t ih =>
    rw [List.foldl_cons]
    by_cases hd : (c.depth : WithTop ℚ) < pd
    · have hps : pstep (pc, pd) c = (c.color, (c.depth : WithTop ℚ)) := by
        simp [pstep, hd]
      rw [hps, ih]
      have hmin : minDepth (c :: t) < pd := by
        rw [minDepth_cons]
        exact lt_of_le_of_lt (min_le_left _ _) hd
      rw [if_pos hmin]
      by_cases ht : minDepth t < (c.depth : WithTop ℚ)
      · rw [if_pos ht]
        have hm : minDepth (c :: t) = minDepth t := by
          rw [minDepth_cons, min_eq_right (le_of_lt ht)]
        have hne : (c.depth : WithTop ℚ) ≠ minDepth t := fun hEq => by
          rw [← hEq] at ht
          exact absurd ht (lt_irrefl _)
        have hattain : ∃ a ∈ t, (a.depth : WithTop ℚ) = minDepth t :=
          minDepth_attained t (lt_of_lt_of_le ht le_top)
        rw [hm, firstColorWithDepth_cons_neg c t (minDepth t) pc hne,
          firstColorWithDepth_default t (minDepth t) hattain pc c.color]
      · rw [if_neg ht]
        have hm : minDepth (c :: t) = (c.depth : WithTop ℚ) := by
          rw [minDepth_cons, min_eq_left (le_of_not_lt ht)]
        rw [hm, firstColorWithDepth_cons_pos c t _ pc rfl]
    · have hps : pstep (pc, pd) c = (pc, pd) := by
        simp [pstep, hd]
      rw [hps, ih]
      have hiff : minDepth (c :: t) < pd ↔ minDepth t < pd := by
        rw [minDepth_cons, min_lt_iff]
        exact ⟨fun h => h.resolve_left hd, Or.inr⟩
      by_cases hmt : minDepth t < pd
      · rw [if_pos hmt, if_pos (hiff.mpr hmt)]
        have hlt : minDepth t < (c.depth : WithTop ℚ) :=
          lt_of_lt_of_le hmt (le_of_not_lt hd)
        have hm : minDepth (c :: t) = minDepth t := by
          rw [minDepth_cons, min_eq_right (le_of_lt hlt)]
        have hne : (c.depth : WithTop ℚ) ≠ minDepth t := fun hEq => by
          rw [← hEq] at hlt
          exact absurd hlt (lt_irrefl _)
        have hattain : ∃ a ∈ t, (a.depth : WithTop ℚ) = minDepth t :=
          minDepth_attained t (lt_of_lt_of_le hmt le_top)
        rw [hm, firstColorWithDepth_cons_neg c t (minDepth t) pc hne,
          firstColorWithDepth_default t (minDepth t) hattain pc pc]
      · rw [if_neg hmt, if_neg (fun h => hmt (hiff.mp h))]

/-- The buffers at one pixel after clearing and drawing: the depth buffer holds
the minimum depth among the calls at that pixel, and the color buffer holds the
color of the first call attaining that minimum (background if none). -/
theorem drawCalls_clear_pixel (fb : Framebuffer) (l : List Call) (x y : ℕ) :
    (drawCalls fb.clear l).depth_buffer x y = minDepth (callsAt x y l) ∧
    (drawCalls fb.clear l).buffer x y =
      (if minDepth (callsAt x y l) < ⊤ then
        firstColorWithDepth (callsAt x y l) (minDepth (callsAt x y l)) fb.background_color
      else fb.background_color) := by
  have h := drawCalls_pixel l fb.clear x y
  have hb : fb.clear.buffer x y = fb.background_color := rfl
  have hd : fb.clear.depth_buffer x y = ⊤ := rfl
  rw [hb, hd, foldl_pstep_char] at h
  by_cases hm : minDepth (callsAt x y l) < ⊤
  · rw [if_pos hm] at h
    rw [if_pos hm]
    exact ⟨(Prod.ext_iff.mp h).2, (Prod.ext_iff.mp h).1⟩
  · rw [if_neg hm] at h
    rw [if_neg hm]
    have htop : minDepth (callsAt x y l) = ⊤ := by
      rcases lt_or_eq_of_le (le_top (a := minDepth (callsAt x y l))) with hlt | heq
      · exact absurd hlt hm
      · exact heq
    exact ⟨(Prod.ext_iff.mp h).2.trans htop.symm, (Prod.ext_iff.mp h).1⟩

/-- The minimum depth is invariant under permutation of the calls. -/
theorem minDepth_perm {A B : List Call} (h : A.Perm B) : minDepth A = minDepth B := by
  rw [minDepth, minDepth]
  apply List.Perm.foldr_eq (h.map fun c => (c.depth : WithTop ℚ))

/-- When the calls have pairwise distinct depths and some call attains depth
`m`, the first color with depth `m` is invariant under permutation. -/
theorem firstColorWithDepth_perm {A B : List Call} (h : A.Perm B) (m : WithTop ℚ)
    (hdist : A.Pairwise fun a b => a.depth ≠ b.depth)
    (hattain : ∃ c ∈ A, (c.depth : WithTop ℚ) = m) (d : ℕ) :
    firstColorWithDepth A m d = firstColorWithDepth B m d := by
  obtain ⟨c0, hc0, hd0⟩ := hattain
  have hsA : (A.find? fun c => (c.depth : WithTop ℚ) = m).isSome := by
    rw [List.find?_isSome]
    exact ⟨c0, hc0, by simp [hd0]⟩
  have hsB : (B.find? fun c => (c.depth : WithTop ℚ) = m).isSome := by
    rw [List.find?_isSome]
    exact ⟨c0, h.mem_iff.mp hc0, by simp [hd0]⟩
  obtain ⟨a, ha⟩ := Option.isSome_iff_exists.mp hsA
  obtain ⟨b, hb⟩ := Option.isSome_iff_exists.mp hsB
  have haA : a ∈ A := List.mem_of_find?_eq_some ha
  have hbA : b ∈ A := h.mem_iff.mpr (List.mem_of_find?_eq_some hb)
  have hda : (a.depth : WithTop ℚ) = m := by
    have := List.find?_some ha
    simpa using this
  have hdb : (b.depth : WithTop ℚ) = m := by
    have := List.find?_some hb
    simpa using this
  have hab : a = b := by
    by_contra hne
    have hsym : Symmetric fun a b : Call => a.depth ≠ b.depth := by
      intro p q hpq hEq
      exact hpq hEq.symm
    have hneq := hdist.forall hsym haA hbA hne
    have : (a.depth : WithTop ℚ) = (b.depth : WithTop ℚ) := hda.trans hdb.symm
    exact hneq (WithTop.coe_inj.mp this)
  rw [firstColorWithDepth, firstColorWithDepth, ha, hb, hab]

/-- C1 (amended): after `clear()`, for every pixel and sequence of draw calls,
the depth buffer holds the minimum depth among the calls at that pixel, the
color buffer holds the color that was current when that minimum depth was
written (the first call attaining the minimum), and a `point` call whose depth
is not less than the stored depth leaves the framebuffer unchanged; the final
pixel contents are independent of the order of the calls provided the calls at
that pixel have pairwise distinct depths (with tied minimal depths the first
writer wins, so the unrestricted claim fails). -/
theorem framebuffer_depth_invariant (fb : Framebuffer) (l₁ l₂ : List Call) (x y : ℕ)
    (hperm : l₁.Perm l₂)
    (hdist : (callsAt x y l₁).Pairwise fun a b => a.depth ≠ b.depth) :
    (drawCalls fb.clear l₁).depth_buffer x y = minDepth (callsAt x y l₁) ∧
    (minDepth (callsAt x y l₁) < ⊤ →
      (drawCalls fb.clear l₁).buffer x y =
        firstMinColor (callsAt x y l₁) fb.background_color) ∧
    (∀ (g : Framebuffer) (d : ℚ), ¬((d : WithTop ℚ) < g.depth_buffer x y) →
      g.point x y d = g) ∧
    (drawCalls fb.clear l₁).buffer x y = (drawCalls fb.clear l₂).buffer x y ∧
    (drawCalls fb.clear l₁).depth_buffer x y = (drawCalls fb.clear l₂).depth_buffer x y := by
  obtain ⟨hd1, hb1⟩ := drawCalls_clear_pixel fb l₁ x y
  obtain ⟨hd2, hb2⟩ := drawCalls_clear_pixel fb l₂ x y
  have hfperm : (callsAt x y l₁).Perm (callsAt x y l₂) := hperm.filter _
  have hmin : minDepth (callsAt x y l₁) = minDepth (callsAt x y l₂) := minDepth_perm hfperm
  refine ⟨hd1, ?_, ?_, ?_, ?_⟩
  · intro hm
    rw [hb1, if_pos hm]
    rfl
  · intro g d hnd
    rw [Framebuffer.point, if_neg hnd]
  · rw [hb1, hb2, ← hmin]
    by_cases hm : minDepth (callsAt x y l₁) < ⊤
    · rw [if_pos hm, if_pos hm]
      exact firstColorWithDepth_perm hfperm _ hdist (minDepth_attained _ hm) _
    · rw [if_neg hm, if_neg hm]
  · rw [hd1, hd2, hmin]

/-- A concrete 800×600 framebuffer used by the witnesses. -/
def testFb : Framebuffer :=
  { width := 800
    height := 600
    background_color := 855
    current_color := 0
    buffer := fun _ _ => 0
    depth_buffer := fun _ _ => ⊤ }

/-- Witness for C1 at two concrete two-call sequences with distinct depths. -/
theorem framebuffer_depth_invariant_w :
    (([⟨1, 0, 0, 1⟩, ⟨2, 0, 0, 2⟩] : List Call).Perm [⟨2, 0, 0, 2⟩, ⟨1, 0, 0, 1⟩] ∧
      (callsAt 0 0 [⟨1, 0, 0, 1⟩, ⟨2, 0, 0, 2⟩]).Pairwise fun a b => a.depth ≠ b.depth) ∧
    (drawCalls testFb.clear [⟨1, 0, 0, 1⟩, ⟨2, 0, 0, 2⟩]).buffer 0 0 =
      (drawCalls testFb.clear [⟨2, 0, 0, 2⟩, ⟨1, 0, 0, 1⟩]).buffer 0 0 ∧
    (drawCalls testFb.clear [⟨1, 0, 0, 1⟩, ⟨2, 0, 0, 2⟩]).depth_buffer 0 0 =
      (drawCalls testFb.clear [⟨2, 0, 0, 2⟩, ⟨1, 0, 0, 1⟩]).depth_buffer 0 0 := by
  have hperm : ([⟨1, 0, 0, 1⟩, ⟨2, 0, 0, 2⟩] : List Call).Perm
      [⟨2, 0, 0, 2⟩, ⟨1, 0, 0, 1⟩] := List.Perm.swap _ _ _
  have hdist : (callsAt 0 0 [(⟨1, 0, 0, 1⟩ : Call), ⟨2, 0, 0, 2⟩]).Pairwise
      fun a b => a.depth ≠ b.depth := by
    have : callsAt 0 0 [(⟨1, 0, 0, 1⟩ : Call), ⟨2, 0, 0, 2⟩] =
        [⟨1, 0, 0, 1⟩, ⟨2, 0, 0, 2⟩] := by
      simp [callsAt]
    rw [this]
    refine List.Pairwise.cons ?_ (List.pairwise_singleton _ _)
    intro b hb
    rw [List.mem_singleton] at hb
    subst hb
    norm_num
  have h := framebuffer_depth_invariant testFb [⟨1, 0, 0, 1⟩, ⟨2, 0, 0, 2⟩]
    [⟨2, 0, 0, 2⟩, ⟨1, 0, 0, 1⟩] 0 0 hperm hdist
  exact ⟨⟨hperm, hdist⟩, h.2.2.2.1, h.2.2.2.2⟩

/-- Counterexample for C1 as stated: two draw calls to the same pixel with
equal depths but different colors; under the strict depth test the first
writer wins, so the two orders leave different colors and the final pixel
contents are not independent of the order of the calls. -/
theorem framebuffer_order_dependent :
    ([⟨7, 0, 0, 1⟩, ⟨9, 0, 0, 1⟩] : List Call).Perm [⟨9, 0, 0, 1⟩, ⟨7, 0, 0, 1⟩] ∧
    (drawCalls testFb.clear [⟨7, 0, 0, 1⟩, ⟨9, 0, 0, 1⟩]).buffer 0 0 = 7 ∧
    (drawCalls testFb.clear [⟨9, 0, 0, 1⟩, ⟨7, 0, 0, 1⟩]).buffer 0 0 = 9 ∧
    (drawCalls testFb.clear [⟨7, 0, 0, 1⟩, ⟨9, 0, 0, 1⟩]).buffer 0 0 ≠
      (drawCalls testFb.clear [⟨9, 0, 0, 1⟩, ⟨7, 0, 0, 1⟩]).buffer 0 0 := by
  have h7 : (drawCalls testFb.clear [(⟨7, 0, 0, 1⟩ : Call), ⟨9, 0, 0, 1⟩]).buffer 0 0 = 7 := by
    simp [drawCalls, drawCall, Framebuffer.point, Framebuffer.set_current_color,
      Framebuffer.clear, testFb, WithTop.coe_lt_top]
  have h9 : (drawCalls testFb.clear [(⟨9, 0, 0, 1⟩ : Call), ⟨7, 0, 0, 1⟩]).buffer 0 0 = 9 := by
    simp [drawCalls, drawCall, Framebuffer.point, Framebuffer.set_current_color,
      Framebuffer.clear, testFb, WithTop.coe_lt_top]
  refine ⟨List.Perm.swap _ _ _, h7, h9, ?_⟩
  rw [h7, h9]
  norm_num

/-- Rust's `f32 as usize` cast used by `render` (src/src/main.rs, lines
179-180): it truncates toward zero and saturates, so every negative value
becomes 0.  (The saturation at `usize::MAX` cannot be hit at any realizable
framebuffer width and is omitted.) -/
def f32_as_usize (q : ℚ) : ℕ := (⌊q⌋).toNat

/-- Whether the render loop's bounds check passes for a fragment, i.e. whether
`point` is called. -/
def pointCalled (fb : Framebuffer) (fragment : Fragment) : Prop :=
  f32_as_usize fragment.position.1 < fb.width ∧
  f32_as_usize fragment.position.2 < fb.height

instance (fb : Framebuffer) (fragment : Fragment) :
    Decidable (pointCalled fb fragment) :=
  instDecidableAnd

/-- Translation of the per-fragment body of the render loop (src/src/main.rs,
lines 178-188): cast the fragment position to `usize`, check bounds, then shade
and call `point` through `set_current_color`. -/
def renderFragment (env : MathEnv) (u : Uniforms) (pt : PlanetType)
    (fb : Framebuffer) (fragment : Fragment) : Framebuffer :=
  if pointCalled fb fragment then
    (fb.set_current_color (fragment_shader env u fragment pt).to_hex).point
      (f32_as_usize fragment.position.1) (f32_as_usize fragment.position.2)
      fragment.depth
  else fb

/-- C7 (amended): the render loop calls `point` exactly when the saturating
cast coordinates are inside the framebuffer extent; fragments whose position is
at or beyond the width or height are dropped silently; but a fragment with a
negative coordinate is not dropped — its coordinate saturates to 0 and it is
drawn at the clamped pixel. -/
theorem render_bounds_check (env : MathEnv) (u : Uniforms) (pt : PlanetType)
    (fb : Framebuffer) (fragment : Fragment) :
    (¬pointCalled fb fragment → renderFragment env u pt fb fragment = fb) ∧
    (pointCalled fb fragment →
      renderFragment env u pt fb fragment =
        (fb.set_current_color (fragment_shader env u fragment pt).to_hex).point
          (f32_as_usize fragment.position.1) (f32_as_usize fragment.position.2)
          fragment.depth) ∧
    ((fb.width : ℚ) ≤ fragment.position.1 →
      ¬(f32_as_usize fragment.position.1 < fb.width)) ∧
    ((fb.height : ℚ) ≤ fragment.position.2 →
      ¬(f32_as_usize fragment.position.2 < fb.height)) ∧
    (fragment.position.1 < 0 → f32_as_usize fragment.position.1 = 0) ∧
    (fragment.position.2 < 0 → f32_as_usize fragment.position.2 = 0) := by
  refine ⟨fun h => by rw [renderFragment, if_neg h],
    fun h => by rw [renderFragment, if_pos h], ?_, ?_, ?_, ?_⟩
  · intro h
    have h2 : (fb.width : ℤ) ≤ ⌊fragment.position.1⌋ :=
      Int.le_floor.mpr (by exact_mod_cast h)
    rw [f32_as_usize]
    omega
  · intro h
    have h2 : (fb.height : ℤ) ≤ ⌊fragment.position.2⌋ :=
      Int.le_floor.mpr (by exact_mod_cast h)
    rw [f32_as_usize]
    omega
  · intro h
    have h2 : ⌊fragment.position.1⌋ < (0 : ℤ) := by
      rw [Int.floor_lt]
      exact_mod_cast h
    rw [f32_as_usize]
    omega
  · intro h
    have h2 : ⌊fragment.position.2⌋ < (0 : ℤ) := by
      rw [Int.floor_lt]
      exact_mod_cast h
    rw [f32_as_usize]
    omega

/-- A fragment whose x position is past the right edge of `testFb`. -/
def oobFragment : Fragment :=
  { position := (900, 10)
    depth := 1
    vertex_position := ⟨0, 0, 0⟩
    normal := ⟨0, 0, 1⟩
    intensity := 1 }

/-- A fragment with a negative x position. -/
def negFragment : Fragment :=
  { position := (-3, 10)
    depth := 1
    vertex_position := ⟨0, 0, 0⟩
    normal := ⟨0, 0, 1⟩
    intensity := 1 }

/-- Witness for C7 at concrete fragments: an x = 900 fragment is dropped by the
800-wide framebuffer; an x = -3 fragment has its coordinate saturated to 0. -/
theorem render_bounds_check_w :
    ((testFb.width : ℚ) ≤ oobFragment.position.1 ∧
      renderFragment zeroEnv (testUniforms 1) PlanetType.Mars testFb oobFragment = testFb) ∧
    (negFragment.position.1 < 0 ∧ f32_as_usize negFragment.position.1 = 0) := by
  have h := render_bounds_check zeroEnv (testUniforms 1) PlanetType.Mars testFb oobFragment
  have hwle : (testFb.width : ℚ) ≤ oobFragment.position.1 := by
    norm_num [testFb, oobFragment]
  have hnc : ¬pointCalled testFb oobFragment := fun hc => (h.2.2.1 hwle) hc.1
  have hneg : negFragment.position.1 < 0 := by norm_num [negFragment]
  exact ⟨⟨hwle, h.1 hnc⟩,
    ⟨hneg,
      (render_bounds_check zeroEnv (testUniforms 1) PlanetType.Mars testFb
        negFragment).2.2.2.2.1 hneg⟩⟩

/-- Counterexample for C7 as stated: a fragment at x = -3 is out of bounds on
the left, yet the bounds check passes (the cast saturates -3 to 0) and the
`point` call goes through, changing the depth buffer at pixel (0, 10) — the
fragment is drawn, not dropped. -/
theorem render_negative_fragment_not_dropped :
    negFragment.position.1 < 0 ∧
    pointCalled testFb negFragment ∧
    (renderFragment zeroEnv (testUniforms 1) PlanetType.Mars testFb
        negFragment).depth_buffer 0 10 ≠ testFb.depth_buffer 0 10 := by
  have hx : f32_as_usize negFragment.position.1 = 0 := by
    norm_num [f32_as_usize, negFragment]
  have hy : f32_as_usize negFragment.position.2 = 10 := by
    norm_num [f32_as_usize, negFragment]
    decide
  have hpc : pointCalled testFb negFragment := by
    rw [pointCalled, hx, hy]
    norm_num [testFb]
  refine ⟨by norm_num [negFragment], hpc, ?_⟩
  rw [renderFragment, if_pos hpc, hx, hy]
  have hlt : ((negFragment.depth : ℚ) : WithTop ℚ) <
      ((testFb.set_current_color
        (fragment_shader zeroEnv (testUniforms 1) negFragment PlanetType.Mars).to_hex).depth_buffer
        0 10) := by
    show ((1 : ℚ) : WithTop ℚ) < ⊤
    exact WithTop.coe_lt_top 1
  rw [Framebuffer.point, if_pos hlt]
  show (if (0 : ℕ) = 0 ∧ (10 : ℕ) = 10 then ((1 : ℚ) : WithTop ℚ) else ⊤) ≠ ⊤
  rw [if_pos ⟨rfl, rfl⟩]
  exact WithTop.coe_ne_top

end ShadersLab
